import Mathlib

/-!
# Verification of `tools/anjay_codegen.py`

Shallow embedding of the object-definition-to-source-skeleton generator:
the identifier sanitizer, the resource/object data model, the template
selector of `generate_object_boilerplate`, the per-resource instance-count
mapping, and the CLI validation gate.  Machine strings are modelled as
`List Char` where character-level reasoning is needed; fallible Python code
(raising exceptions) is modelled with `Option`/`Except`.
-/

/-- ASCII alphanumeric test: the character class `[a-zA-Z0-9]`
(`NONALPHANUM_REGEX = re.compile(r'[^a-zA-Z0-9]+')` matches its complement).
65–90 is `A`–`Z`, 97–122 is `a`–`z`, 48–57 is `0`–`9`. -/
def isAlnum (c : Char) : Bool :=
  (65 ≤ c.toNat && c.toNat ≤ 90) || (97 ≤ c.toNat && c.toNat ≤ 122) ||
    (48 ≤ c.toNat && c.toNat ≤ 57)

/-- `NONALPHANUM_REGEX.sub('_', n)`: every maximal run of characters outside
`[a-zA-Z0-9]` is replaced by a single underscore.  The Boolean flag records
whether the scan currently sits inside a run whose underscore has already
been emitted. -/
def subAux : Bool → List Char → List Char
  | _, [] => []
  | inRun, c :: cs =>
    if isAlnum c then c :: subAux false cs
    else if inRun then subAux true cs
    else '_' :: subAux true cs

/-- The regex substitution starts outside any run. -/
def subNonAlnum (l : List Char) : List Char := subAux false l

/-- The trailing half of Python `str.strip('_')`: remove every trailing
underscore. -/
def dropTrailingUnderscore : List Char → List Char
  | [] => []
  | c :: cs =>
    match dropTrailingUnderscore cs with
    | [] => if c = '_' then [] else [c]
    | r :: rs => c :: r :: rs

/-- Python `str.strip('_')`: remove leading and trailing underscores. -/
def stripUnderscore (l : List Char) : List Char :=
  dropTrailingUnderscore (l.dropWhile (fun c => c == '_'))

/-- `DIGIT_SPELLINGS.get(identifier[0], identifier[0])`: the English word for
a digit in leading position, any other character unchanged. -/
def digitSpelling (c : Char) : List Char :=
  if c = '0' then "zero".toList
  else if c = '1' then "one".toList
  else if c = '2' then "two".toList
  else if c = '3' then "three".toList
  else if c = '4' then "four".toList
  else if c = '5' then "five".toList
  else if c = '6' then "six".toList
  else if c = '7' then "seven".toList
  else if c = '8' then "eight".toList
  else if c = '9' then "nine".toList
  else [c]

/-- `_sanitize_identifier(n)`: substitute non-alphanumeric runs by `_`, strip
underscores, then spell out a leading digit.  Python evaluates
`identifier[0]`, which raises `IndexError` when the stripped string is empty;
that failure is `none` here. -/
def sanitizeChars (n : List Char) : Option (List Char) :=
  match stripUnderscore (subNonAlnum n) with
  | [] => none
  | c :: rest => some (digitSpelling c ++ rest)

/-- String-level wrapper of `_sanitize_identifier`. -/
def sanitize_identifier (n : String) : Option String :=
  (sanitizeChars n.toList).map (fun l => String.mk l)

/-- A valid source-code identifier: non-empty, first character a letter or
underscore, remaining characters alphanumeric or underscore.  (Property
definition for the sanitizer's contract, not an embedding of repository
code.) -/
def isDigitChar (c : Char) : Bool :=
  c == '0' || c == '1' || c == '2' || c == '3' || c == '4' || c == '5' ||
    c == '6' || c == '7' || c == '8' || c == '9'

/-- See `isDigitChar`. -/
def isValidIdentifier (s : String) : Bool :=
  match s.toList with
  | [] => false
  | c :: rest =>
    ((isAlnum c && !isDigitChar c) || c == '_') &&
      rest.all (fun d => isAlnum d || d == '_')

/-- The `ResourceDef` named tuple. -/
structure ResourceDef where
  rid : Nat
  name : String
  operations : String
  multiple : Bool
  mandatory : Bool
  type : String
  range_enumeration : String
  units : String
  description : String
deriving Repr, DecidableEq

/-- The closed set of operation strings accepted by `kind_enum`. -/
def validOperations : List String := ["R", "W", "RW", "E", "BS_RW"]

/-- `ResourceDef.kind_enum`: raises (here: `Except.error`) on an operations
string outside the closed set, and on a multiple-instance resource whose
operations contain `E` (Python `'E' in self.operations`, modelled as
membership of the character among the string's characters); otherwise
returns `ANJ_DM_RES_` + operations, with an `M` suffix for
multiple-instance resources. -/
def ResourceDef.kind_enum (r : ResourceDef) : Except String String :=
  if validOperations.contains r.operations = false then
    Except.error ("unexpected operations: " ++ r.operations)
  else if r.multiple then
    if r.operations.toList.contains 'E' then
      Except.error "multiple-instance executable resources are not supported"
    else
      Except.ok ("ANJ_DM_RES_" ++ r.operations ++ "M")
  else
    Except.ok ("ANJ_DM_RES_" ++ r.operations)

/-- Whether an `Except` result is an exception. -/
def isErr {ε α : Type} : Except ε α → Bool
  | Except.error _ => true
  | Except.ok _ => false

/-- `ObjectDef.parse_resources`: `sorted(..., key=operator.attrgetter('rid'))`
over the parsed resource items (Python's `sorted` is a stable ascending
sort; modelled by the stable `List.mergeSort`).  The per-item XML parse is
abstracted: the input is the list of already-parsed `ResourceDef`s in
document order. -/
def parse_resources (items : List ResourceDef) : List ResourceDef :=
  items.mergeSort (fun a b => a.rid ≤ b.rid)

/-- The resource list of `ObjectDef.from_etree`: the sorted resources,
narrowed to `resources_subset` when one is supplied
(`[r for r in resources if r.rid in resources_subset]`). -/
def from_etree_resources (items : List ResourceDef)
    (resources_subset : Option (List Nat)) : List ResourceDef :=
  match resources_subset with
  | none => parse_resources items
  | some s => (parse_resources items).filter (fun r => s.contains r.rid)

/-- The two Jinja templates `generate_object_boilerplate` can render. -/
inductive TemplateChoice where
  | singleInstance
  | multipleInstances
deriving Repr, DecidableEq

/-- The template-selection branch of `generate_object_boilerplate`
(`if obj.multiple == False or (instances_number and instances_number == 1)`
… `elif instances_number and instances_number > 1` … implicit `None`).
Python truthiness of the `int` argument is `≠ 0`; the function falls off the
end — returning `None`, modelled `none` — when neither branch fires.  The
`dynamic_instances` parameter is accepted but never consulted here (it is
only forwarded into the template context). -/
def select_template (obj_multiple : Bool) (instances_number : Int)
    (dynamic_instances : Bool) : Option TemplateChoice :=
  if obj_multiple = false ∨ (instances_number ≠ 0 ∧ instances_number = 1) then
    some TemplateChoice.singleInstance
  else if instances_number ≠ 0 ∧ instances_number > 1 then
    some TemplateChoice.multipleInstances
  else
    none

/-- The override-collection loop of `generate_object_boilerplate`
(`for rid, count in resource_instances or []`): insert each pair unless the
resource ID is already present, in which case a `ValueError` is raised.
The Python dict (insertion-ordered, first value kept) is an association
list. -/
def build_overrides (acc : List (Nat × Nat)) :
    List (Nat × Nat) → Except String (List (Nat × Nat))
  | [] => Except.ok acc
  | (rid, count) :: rest =>
    if (acc.lookup rid).isSome then
      Except.error ("Resource ID " ++ toString rid ++
        " specified multiple times with different instance counts.")
    else
      build_overrides (acc ++ [(rid, count)]) rest

/-- The defaulting loop of `generate_object_boilerplate`
(`for resource in obj.resources`): every multiple-instance resource not yet
in the mapping gets instance count 2. -/
def add_defaults (dict : List (Nat × Nat)) (resources : List ResourceDef) :
    List (Nat × Nat) :=
  resources.foldl
    (fun d r =>
      if r.multiple && (d.lookup r.rid).isNone then d ++ [(r.rid, 2)] else d)
    dict

/-- The full `resource_instances_dict` computation of
`generate_object_boilerplate`, starting from the empty dict. -/
def resource_instances_dict (resource_instances : List (Nat × Nat))
    (resources : List ResourceDef) : Except String (List (Nat × Nat)) :=
  (build_overrides [] resource_instances).map
    (fun d => add_defaults d resources)

/-- `generate_object_boilerplate` as far as its observable decisions go:
build the per-resource instance-count mapping (a `ValueError` aborts), then
select a template; the rendered artifact is abstracted by the selected
template together with the mapping bound into the template context.  A
`none` payload is Python's implicit `return None` when no branch selects a
template. -/
def generate_object_boilerplate (obj_multiple : Bool)
    (resources : List ResourceDef) (instances_number : Int)
    (resource_instances : List (Nat × Nat)) (dynamic_instances : Bool) :
    Except String (Option (TemplateChoice × List (Nat × Nat))) :=
  (resource_instances_dict resource_instances resources).map
    (fun d =>
      (select_template obj_multiple instances_number dynamic_instances).map
        (fun t => (t, d)))

/-- The advisory-note condition of `__main__`
(`if args.instances_number > 1 and not obj.multiple`): the NOTE about
degrading to single-instance generation is printed exactly then. -/
def note_emitted (obj_multiple : Bool) (instances_number : Int) : Bool :=
  decide (instances_number > 1) && !obj_multiple

/-- Whether `args.instances_number` passes the `__main__` gate
(`args.instances_number is not None and args.instances_number not in
range(1, 65535)` triggers `sys.exit(1)`); `none` models Python `None`. -/
def instances_number_ok (n : Option Int) : Bool :=
  match n with
  | none => true
  | some v => decide (1 ≤ v) && decide (v ≤ 65534)

/-- First observable action of `__main__` after argument parsing: either
`sys.exit(1)` with a usage message (nonzero exit, the input document is
never opened), or opening/reading the input document.  In the source the
gate at lines 270–272 precedes the read at lines 274–279. -/
inductive MainStep where
  | exitUsage
  | readInput (path : String)
deriving Repr, DecidableEq

/-- The `__main__` gate: usage error when the input is missing or the
instance count is outside `range(1, 65535)`; otherwise proceed to read the
input document. -/
def main_first_action (input : Option String) (n : Option Int) : MainStep :=
  match input with
  | none => MainStep.exitUsage
  | some path =>
    if instances_number_ok n then MainStep.readInput path
    else MainStep.exitUsage

/-- Invariant of the regex substitution's output: no two adjacent
underscores (each maximal run was collapsed to a single `_`). -/
def NotBothUnderscore (a b : Char) : Prop := ¬(a = '_' ∧ b = '_')

/-- Shape of every sanitizer output: alphanumeric-or-underscore characters
only, no two adjacent underscores, a leading alphanumeric non-digit, no
trailing underscore (and in particular non-empty). -/
def Canonical (l : List Char) : Prop :=
  (∀ c ∈ l, isAlnum c = true ∨ c = '_') ∧
  List.Chain' NotBothUnderscore l ∧
  (match l with
    | [] => False
    | c :: _ => isAlnum c = true ∧ isDigitChar c = false) ∧
  l.getLast? ≠ some '_'

/-! ## Helper lemmas -/

theorem lookup_append_some {l₁ l₂ : List (Nat × Nat)} {k v : Nat}
    (h : l₁.lookup k = some v) : (l₁ ++ l₂).lookup k = some v := by
  rw [List.lookup_append, h]
  rfl

theorem lookup_append_none {l₁ l₂ : List (Nat × Nat)} {k : Nat}
    (h : l₁.lookup k = none) : (l₁ ++ l₂).lookup k = l₂.lookup k := by
  rw [List.lookup_append, h, Option.none_or]

theorem lookup_append_isSome_left {l₁ l₂ : List (Nat × Nat)} {k : Nat}
    (h : (l₁.lookup k).isSome = true) : ((l₁ ++ l₂).lookup k).isSome = true := by
  obtain ⟨v, hv⟩ := Option.isSome_iff_exists.mp h
  rw [lookup_append_some hv]
  rfl

theorem lookup_singleton_self (k v : Nat) : [(k, v)].lookup k = some v := by
  simp [List.lookup_cons]

theorem lookup_singleton_ne {k a v : Nat} (h : k ≠ a) : [(a, v)].lookup k = none := by
  have hb : (k == a) = false := beq_eq_false_iff_ne.mpr h
  simp [List.lookup_cons, hb]

theorem build_overrides_error_of_mem (ov : List (Nat × Nat)) :
    ∀ (acc : List (Nat × Nat)) (rid c : Nat), (rid, c) ∈ ov →
      (acc.lookup rid).isSome = true → isErr (build_overrides acc ov) = true := by
  induction ov with
  | nil =>
    intro acc rid c h
    exact absurd h (List.not_mem_nil _)
  | cons p rest ih =>
    intro acc rid c hmem hsome
    obtain ⟨r', c'⟩ := p
    simp only [build_overrides]
    by_cases hc : (acc.lookup r').isSome = true
    · rw [if_pos hc]
      rfl
    · rw [if_neg hc]
      rcases List.mem_cons.mp hmem with heq | hmem'
      · obtain ⟨rfl, rfl⟩ := Prod.mk.injEq .. ▸ heq
        exact absurd hsome hc
      · exact ih _ rid c hmem' (lookup_append_isSome_left hsome)

theorem build_overrides_ok : ∀ (ov acc : List (Nat × Nat)),
    (ov.map Prod.fst).Nodup → (∀ p ∈ ov, acc.lookup p.1 = none) →
    build_overrides acc ov = Except.ok (acc ++ ov) := by
  intro ov
  induction ov with
  | nil =>
    intro acc _ _
    simp [build_overrides]
  | cons p rest ih =>
    intro acc hnd hnone
    obtain ⟨r, c⟩ := p
    have hkeys : r ∉ rest.map Prod.fst ∧ (rest.map Prod.fst).Nodup :=
      List.nodup_cons.mp (show (r :: rest.map Prod.fst).Nodup from hnd)
    have hlook : acc.lookup r = none := hnone (r, c) (List.mem_cons_self _ _)
    simp only [build_overrides]
    rw [if_neg (by rw [hlook]; simp)]
    rw [ih (acc ++ [(r, c)]) hkeys.2 ?_]
    · simp
    · intro p hp
      have hne : p.1 ≠ r := by
        intro he
        exact hkeys.1 (he ▸ List.mem_map_of_mem Prod.fst hp)
      rw [lookup_append_none (hnone p (List.mem_cons_of_mem _ hp)),
        lookup_singleton_ne hne]

/-- Unfolding the defaulting fold one resource at a time. -/
theorem add_defaults_cons (d : List (Nat × Nat)) (r : ResourceDef)
    (rs : List ResourceDef) :
    add_defaults d (r :: rs) =
      add_defaults
        (if r.multiple && (d.lookup r.rid).isNone then d ++ [(r.rid, 2)] else d)
        rs := rfl

theorem add_defaults_preserve : ∀ (rs : List ResourceDef)
    (d : List (Nat × Nat)) (k v : Nat),
    d.lookup k = some v → (add_defaults d rs).lookup k = some v := by
  intro rs
  induction rs with
  | nil =>
    intro d k v h
    exact h
  | cons r rs' ih =>
    intro d k v h
    rw [add_defaults_cons]
    by_cases hc : (r.multiple && (d.lookup r.rid).isNone) = true
    · rw [if_pos hc]
      exact ih _ k v (lookup_append_some h)
    · rw [if_neg hc]
      exact ih _ k v h

theorem add_defaults_mult : ∀ (rs : List ResourceDef)
    (d : List (Nat × Nat)) (k : Nat),
    (d.lookup k = none ∨ d.lookup k = some 2) →
    (∃ r ∈ rs, r.rid = k ∧ r.multiple = true) →
    (add_defaults d rs).lookup k = some 2 := by
  intro rs
  induction rs with
  | nil =>
    rintro d k _ ⟨r, hr, -⟩
    exact absurd hr (List.not_mem_nil _)
  | cons r₀ rs' ih =>
    rintro d k hinv ⟨r, hrmem, hrk, hrm⟩
    rw [add_defaults_cons]
    by_cases hc : (r₀.multiple && (d.lookup r₀.rid).isNone) = true
    · rw [if_pos hc]
      rcases List.mem_cons.mp hrmem with rfl | hmem'
      · subst hrk
        rcases hinv with hn | hs
        · exact add_defaults_preserve rs' _ _ _
            (by rw [lookup_append_none hn, lookup_singleton_self])
        · exact add_defaults_preserve rs' _ _ _ (lookup_append_some hs)
      · refine ih _ k ?_ ⟨r, hmem', hrk, hrm⟩
        rcases hinv with hn | hs
        · by_cases hk : k = r₀.rid
          · subst hk
            right
            rw [lookup_append_none hn, lookup_singleton_self]
          · left
            rw [lookup_append_none hn, lookup_singleton_ne hk]
        · right
          exact lookup_append_some hs
    · rw [if_neg hc]
      rcases List.mem_cons.mp hrmem with rfl | hmem'
      · subst hrk
        rcases hinv with hn | hs
        · exact absurd (by rw [hrm, hn]; rfl) hc
        · exact add_defaults_preserve rs' _ _ _ hs
      · exact ih d k hinv ⟨r, hmem', hrk, hrm⟩

theorem add_defaults_skip : ∀ (rs : List ResourceDef)
    (d : List (Nat × Nat)) (k : Nat),
    (∀ r ∈ rs, r.rid = k → r.multiple = false) →
    (add_defaults d rs).lookup k = d.lookup k := by
  intro rs
  induction rs with
  | nil =>
    intro d k _
    rfl
  | cons r₀ rs' ih =>
    intro d k hall
    rw [add_defaults_cons]
    have hall' : ∀ r ∈ rs', r.rid = k → r.multiple = false :=
      fun r h => hall r (List.mem_cons_of_mem _ h)
    by_cases hc : (r₀.multiple && (d.lookup r₀.rid).isNone) = true
    · rw [if_pos hc, ih _ k hall']
      have hm : r₀.multiple = true := (Bool.and_eq_true _ _ |>.mp hc).1
      have hne : k ≠ r₀.rid := by
        intro he
        rw [hall r₀ (List.mem_cons_self _ _) he.symm] at hm
        exact Bool.noConfusion hm
      cases h : d.lookup k with
      | none => rw [lookup_append_none h, lookup_singleton_ne hne]
      | some v => rw [lookup_append_some h]
    · rw [if_neg hc]
      exact ih d k hall'

/-! ## Claim theorems -/

/-- C1, counterexample: for a multi-instance object (`multiple = true`) with
requested `instances_number = 1`, template selection picks the
single-instance template, but NO advisory note is recorded: the note of
`__main__` fires only when `instances_number > 1` and the object is NOT
multi-instance.  This refutes the claim's "AND records a warning" part. -/
theorem c1_note_counterexample :
    select_template true 1 false = some TemplateChoice.singleInstance ∧
      note_emitted true 1 = false := by
  constructor <;> rfl

/-- C1, amended: for every multi-instance object with requested
`instances_number = 1`, and any state of the dynamic-instances flag, the
single-instance template is selected and no advisory note is recorded. -/
theorem c1_single_template_no_note (dyn : Bool) :
    select_template true 1 dyn = some TemplateChoice.singleInstance ∧
      note_emitted true 1 = false := by
  constructor <;> rfl

/-- C2, counterexample: with `multiple = true`, `instances_number = 0`
(≠ 1, Python-falsy, e.g. the `int` argument 0) and the dynamic-instances
flag SET, template selection does not choose the multiple-instances
template — it selects nothing at all, because the flag is never consulted. -/
theorem c2_dynamic_flag_counterexample :
    (0 : Int) ≠ 1 ∧
      select_template true 0 true ≠ some TemplateChoice.multipleInstances := by
  constructor
  · decide
  · intro h
    simp [select_template] at h

/-- C2, amended: template selection ignores the dynamic-instances flag
entirely: for a multi-instance object with `instances_number ≠ 1`, the
multiple-instances template is chosen exactly when `instances_number` is a
fixed integer greater than 1, whatever the flag's value. -/
theorem c2_multiple_template_iff (n : Int) (dyn : Bool) (h : n ≠ 1) :
    select_template true n dyn = some TemplateChoice.multipleInstances ↔
      1 < n := by
  have hc1 : ¬(true = false ∨ (n ≠ 0 ∧ n = 1)) := by
    rintro (hf | ⟨-, rfl⟩)
    · exact Bool.noConfusion hf
    · exact h rfl
  simp only [select_template, if_neg hc1]
  constructor
  · intro hsel
    by_cases hc2 : n ≠ 0 ∧ n > 1
    · omega
    · rw [if_neg hc2] at hsel
      exact Option.noConfusion hsel
  · intro h1
    rw [if_pos ⟨by omega, h1⟩]

/-- C2 witness: at `n = 5` with the flag set, the amended iff holds and
both sides are true. -/
theorem c2_multiple_template_iff_witness :
    (5 : Int) ≠ 1 ∧
      (select_template true 5 true = some TemplateChoice.multipleInstances ↔
        1 < (5 : Int)) :=
  ⟨by decide, c2_multiple_template_iff 5 true (by decide)⟩

/-- C3, counterexample: the operations string `E` is inside the closed
enumeration, yet `kind_enum` fails on a multiple-instance executable
resource; so `kind_enum` does not succeed on every resource whose
operations string is one of the five valid values. -/
theorem c3_kind_enum_counterexample :
    validOperations.contains "E" = true ∧
      isErr (ResourceDef.kind_enum
        ⟨1, "res", "E", true, false, "N/A", "N/A", "N/A", ""⟩) = true := by
  constructor
  · rfl
  · decide

/-- C3, amended: `kind_enum` fails iff the operations string is outside
`{R, W, RW, E, BS_RW}`, or the resource is multiple-instance and its
operations contain `E` (which, inside the enumeration, is exactly the
string `E`). -/
theorem c3_kind_enum_error_iff (r : ResourceDef) :
    isErr r.kind_enum = true ↔
      (validOperations.contains r.operations = false ∨
        (r.multiple = true ∧ r.operations.toList.contains 'E' = true)) := by
  by_cases h1 : r.operations ∈ validOperations
  · have h1' : validOperations.contains r.operations = true := by simpa using h1
    by_cases h3 : 'E' ∈ r.operations.data
    · have h3' : r.operations.toList.contains 'E' = true := by simpa using h3
      cases h2 : r.multiple <;>
        simp [ResourceDef.kind_enum, isErr, h1, h1', h2, h3, h3']
    · have h3' : r.operations.toList.contains 'E' = false := by simpa using h3
      cases h2 : r.multiple <;>
        simp [ResourceDef.kind_enum, isErr, h1, h1', h2, h3, h3']
  · have h1' : validOperations.contains r.operations = false := by simpa using h1
    simp [ResourceDef.kind_enum, isErr, h1, h1']

/-- C5, counterexample: with `multiple = true`, `instances_number = 0`
(neither 1 nor greater than 1) and the dynamic-instances flag unset,
`generate_object_boilerplate` does not fail with a configuration error: it
silently succeeds with the absent result `none` (Python falls off the end
and returns `None`). -/
theorem c5_silent_none_counterexample :
    (0 : Int) ≠ 1 ∧ ¬(1 < (0 : Int)) ∧
      generate_object_boilerplate true [] 0 [] false = Except.ok none := by
  refine ⟨by decide, by decide, rfl⟩

/-- C5, amended: for every multi-instance object, when the requested
`instances_number` is neither 1 nor greater than 1 and the
dynamic-instances flag is unset (and the overrides are free of duplicate
IDs, so the earlier `ValueError` does not fire), generation silently
returns the absent result `Except.ok none` instead of raising a
configuration error. -/
theorem c5_silent_none (resources : List ResourceDef) (n : Int)
    (ov : List (Nat × Nat)) (h1 : n ≠ 1) (h2 : ¬(1 < n))
    (hnd : (ov.map Prod.fst).Nodup) :
    generate_object_boilerplate true resources n ov false = Except.ok none := by
  have hb : build_overrides [] ov = Except.ok ([] ++ ov) :=
    build_overrides_ok ov [] hnd (fun p _ => rfl)
  have hna : ¬(true = false ∨ (n ≠ 0 ∧ n = 1)) := by
    rintro (hf | ⟨-, rfl⟩)
    · exact Bool.noConfusion hf
    · exact h1 rfl
  have hnb : ¬(n ≠ 0 ∧ n > 1) := by
    rintro ⟨-, hgt⟩
    omega
  have hsel : select_template true n false = none := by
    simp only [select_template, if_neg hna, if_neg hnb]
  simp [generate_object_boilerplate, resource_instances_dict, hb, hsel, Except.map]

/-- C5 witness: concrete instantiation of the amended claim at
`resources = []`, `n = 0`, no overrides. -/
theorem c5_silent_none_witness :
    (0 : Int) ≠ 1 ∧ ¬(1 < (0 : Int)) ∧
      (([] : List (Nat × Nat)).map Prod.fst).Nodup ∧
      generate_object_boilerplate true [] 0 [] false = Except.ok none :=
  ⟨by decide, by decide, by decide,
    c5_silent_none [] 0 [] (by decide) (by decide) (by decide)⟩

/-- C8: with an input document supplied, any `--instances-number` outside
`[1, 65534]` makes `__main__` exit with a usage error as its first action —
before the input document is ever read (`MainStep.readInput` is the only
step that opens it, and `MainStep.exitUsage` is `sys.exit(1)`, a nonzero
status) — while the boundary values 1 and 65534 are accepted and
generation proceeds to the read. -/
theorem c8_instances_number_gate (path : String) (n : Int) :
    (¬(1 ≤ n ∧ n ≤ 65534) →
      main_first_action (some path) (some n) = MainStep.exitUsage) ∧
    main_first_action (some path) (some 1) = MainStep.readInput path ∧
    main_first_action (some path) (some 65534) = MainStep.readInput path := by
  refine ⟨fun h => ?_, rfl, rfl⟩
  simp only [main_first_action, instances_number_ok]
  rw [if_neg]
  simp only [Bool.and_eq_true, decide_eq_true_eq]
  omega

/-- C8 witness: the spec's example `--instances-number 70000` exits with the
usage error. -/
theorem c8_instances_number_gate_witness :
    ¬(1 ≤ (70000 : Int) ∧ (70000 : Int) ≤ 65534) ∧
      main_first_action (some "obj.xml") (some 70000) = MainStep.exitUsage :=
  ⟨by decide, (c8_instances_number_gate "obj.xml" 70000).1 (by decide)⟩

/-- C9: for a duplicate-free override list, the resolved per-resource
instance-count mapping returned by `generate_object_boilerplate` assigns
the explicit override value to every resource that has one, assigns 2 to
every multi-instance resource without an override, and gives no entry to a
single-instance resource without an override (when no other resource
shares its ID as a multi-instance resource). -/
theorem c9_instance_count_mapping (ov : List (Nat × Nat))
    (resources : List ResourceDef) (hnd : (ov.map Prod.fst).Nodup) :
    ∃ d, resource_instances_dict ov resources = Except.ok d ∧
      (∀ r ∈ resources, ∀ cnt : Nat,
        ov.lookup r.rid = some cnt → d.lookup r.rid = some cnt) ∧
      (∀ r ∈ resources, r.multiple = true → ov.lookup r.rid = none →
        d.lookup r.rid = some 2) ∧
      (∀ r ∈ resources, r.multiple = false → ov.lookup r.rid = none →
        (∀ r' ∈ resources, r'.rid = r.rid → r'.multiple = false) →
        d.lookup r.rid = none) := by
  have hb : build_overrides [] ov = Except.ok ([] ++ ov) :=
    build_overrides_ok ov [] hnd (fun p _ => rfl)
  rw [List.nil_append] at hb
  refine ⟨add_defaults ov resources, ?_, ?_, ?_, ?_⟩
  · simp [resource_instances_dict, hb, Except.map]
  · intro r _ cnt hov
    exact add_defaults_preserve resources ov r.rid cnt hov
  · intro r hr hm hov
    exact add_defaults_mult resources ov r.rid (Or.inl hov) ⟨r, hr, rfl, hm⟩
  · intro r _ _ hov hall
    rw [add_defaults_skip resources ov r.rid
      (fun r' h' he => hall r' h' he), hov]

/-- C9 witness: object with multi-instance resources 1 and 2 and
single-instance resource 3, override `[(1, 5)]`: resource 1 maps to 5,
resource 2 defaults to 2, resource 3 gets no entry. -/
theorem c9_instance_count_mapping_witness :
    (([(1, 5)] : List (Nat × Nat)).map Prod.fst).Nodup ∧
      ∃ d, resource_instances_dict [(1, 5)]
          [⟨1, "a", "R", true, true, "N/A", "N/A", "N/A", ""⟩,
           ⟨2, "b", "R", true, true, "N/A", "N/A", "N/A", ""⟩,
           ⟨3, "c", "R", false, true, "N/A", "N/A", "N/A", ""⟩] =
          Except.ok d ∧
        (∀ r ∈ [(⟨1, "a", "R", true, true, "N/A", "N/A", "N/A", ""⟩ : ResourceDef),
           ⟨2, "b", "R", true, true, "N/A", "N/A", "N/A", ""⟩,
           ⟨3, "c", "R", false, true, "N/A", "N/A", "N/A", ""⟩], ∀ cnt : Nat,
          ([(1, 5)] : List (Nat × Nat)).lookup r.rid = some cnt →
            d.lookup r.rid = some cnt) ∧
        (∀ r ∈ [(⟨1, "a", "R", true, true, "N/A", "N/A", "N/A", ""⟩ : ResourceDef),
           ⟨2, "b", "R", true, true, "N/A", "N/A", "N/A", ""⟩,
           ⟨3, "c", "R", false, true, "N/A", "N/A", "N/A", ""⟩],
          r.multiple = true → ([(1, 5)] : List (Nat × Nat)).lookup r.rid = none →
            d.lookup r.rid = some 2) ∧
        (∀ r ∈ [(⟨1, "a", "R", true, true, "N/A", "N/A", "N/A", ""⟩ : ResourceDef),
           ⟨2, "b", "R", true, true, "N/A", "N/A", "N/A", ""⟩,
           ⟨3, "c", "R", false, true, "N/A", "N/A", "N/A", ""⟩],
          r.multiple = false → ([(1, 5)] : List (Nat × Nat)).lookup r.rid = none →
            (∀ r' ∈ [(⟨1, "a", "R", true, true, "N/A", "N/A", "N/A", ""⟩ : ResourceDef),
               ⟨2, "b", "R", true, true, "N/A", "N/A", "N/A", ""⟩,
               ⟨3, "c", "R", false, true, "N/A", "N/A", "N/A", ""⟩],
              r'.rid = r.rid → r'.multiple = false) →
            d.lookup r.rid = none) :=
  ⟨by decide, c9_instance_count_mapping [(1, 5)] _ (by decide)⟩

/-- C10: an override list in which the same resource ID appears twice —
even with the identical count both times — always makes
`generate_object_boilerplate`'s override collection raise the `ValueError`
(the check rejects any repetition, not only conflicting counts). -/
theorem c10_duplicate_override_error (pre mid post : List (Nat × Nat))
    (rid c : Nat) :
    isErr (build_overrides []
      (pre ++ (rid, c) :: mid ++ (rid, c) :: post)) = true := by
  suffices h : ∀ acc, isErr (build_overrides acc
      (pre ++ (rid, c) :: mid ++ (rid, c) :: post)) = true from h []
  induction pre with
  | nil =>
    intro acc
    simp only [List.nil_append]
    simp only [build_overrides]
    by_cases hc : (acc.lookup rid).isSome = true
    · rw [if_pos hc]
      rfl
    · rw [if_neg hc]
      apply build_overrides_error_of_mem _ _ rid c
      · exact List.mem_append_right _ (List.mem_cons_self _ _)
      · have hn : acc.lookup rid = none := by
          cases h : acc.lookup rid with
          | none => rfl
          | some v => rw [h] at hc; exact absurd rfl hc
        rw [lookup_append_none hn, lookup_singleton_self]
        rfl
  | cons p pre' ih =>
    intro acc
    obtain ⟨p1, p2⟩ := p
    simp only [List.cons_append]
    simp only [build_overrides]
    by_cases hc : (acc.lookup p1).isSome = true
    · rw [if_pos hc]
      rfl
    · rw [if_neg hc]
      exact ih _

/-- `sorted(key=attrgetter('rid'))` yields a list that is pairwise
non-decreasing on `rid`. -/
theorem parse_resources_sorted (its : List ResourceDef) :
    List.Pairwise (fun a b : ResourceDef => a.rid ≤ b.rid)
      (parse_resources its) := by
  have h : List.Pairwise
      (fun a b : ResourceDef => (decide (a.rid ≤ b.rid)) = true)
      (parse_resources its) := by
    unfold parse_resources
    apply List.sorted_mergeSort
    · intro a b c hab hbc
      simp only [decide_eq_true_eq] at *
      omega
    · intro a b
      simp only [Bool.or_eq_true, decide_eq_true_eq]
      omega
  exact h.imp (fun hab => of_decide_eq_true hab)

/-- C7: the parsed resource sequence is sorted by ascending resource ID for
every input order, the ascending order survives the optional allow-list
filter, and the spec's example holds: input IDs `[5, 1, 3]` come out as
`[1, 3, 5]`. -/
theorem c7_resources_sorted (items : List ResourceDef)
    (subset : Option (List Nat)) :
    List.Pairwise (fun a b : ResourceDef => a.rid ≤ b.rid)
      (from_etree_resources items subset) ∧
    (from_etree_resources
        [⟨5, "r5", "R", false, true, "N/A", "N/A", "N/A", ""⟩,
         ⟨1, "r1", "R", false, true, "N/A", "N/A", "N/A", ""⟩,
         ⟨3, "r3", "R", false, true, "N/A", "N/A", "N/A", ""⟩] none).map
      ResourceDef.rid = [1, 3, 5] := by
  constructor
  · cases subset with
    | none => exact parse_resources_sorted items
    | some s => exact (parse_resources_sorted items).filter _
  · simp [from_etree_resources, parse_resources, List.mergeSort,
      List.splitInTwo, List.merge]


theorem isAlnum_ne_underscore {c : Char} (h : isAlnum c = true) : c ≠ '_' := by
  rintro rfl
  exact absurd h (by decide)

theorem subAux_cons_alnum (b : Bool) {a : Char} (as : List Char)
    (ha : isAlnum a = true) : subAux b (a :: as) = a :: subAux false as := by
  cases b <;> simp [subAux, ha]

theorem subAux_cons_run {a : Char} (as : List Char)
    (ha : isAlnum a = false) : subAux true (a :: as) = subAux true as := by
  simp [subAux, ha]

theorem subAux_cons_start {a : Char} (as : List Char)
    (ha : isAlnum a = false) :
    subAux false (a :: as) = '_' :: subAux true as := by
  simp [subAux, ha]

theorem subAux_good : ∀ (b : Bool) (l : List Char), ∀ c ∈ subAux b l,
    isAlnum c = true ∨ c = '_' := by
  intro b l
  induction l generalizing b with
  | nil => intro c h; exact absurd h (List.not_mem_nil _)
  | cons a as ih =>
    intro c h
    cases ha : isAlnum a with
    | true =>
      rw [subAux_cons_alnum b as ha] at h
      rcases List.mem_cons.mp h with rfl | h'
      · exact Or.inl ha
      · exact ih false c h'
    | false =>
      cases b with
      | true =>
        rw [subAux_cons_run as ha] at h
        exact ih true c h
      | false =>
        rw [subAux_cons_start as ha] at h
        rcases List.mem_cons.mp h with rfl | h'
        · exact Or.inr rfl
        · exact ih true c h'

theorem subAux_true_head : ∀ (l : List Char) {c : Char} {cs : List Char},
    subAux true l = c :: cs → isAlnum c = true := by
  intro l
  induction l with
  | nil => intro c cs h; exact absurd h (by simp [subAux])
  | cons a as ih =>
    intro c cs h
    cases ha : isAlnum a with
    | true =>
      rw [subAux_cons_alnum true as ha] at h
      injection h with h1 _
      subst h1
      exact ha
    | false =>
      rw [subAux_cons_run as ha] at h
      exact ih h

theorem subAux_chain : ∀ (b : Bool) (l : List Char),
    List.Chain' NotBothUnderscore (subAux b l) := by
  intro b l
  induction l generalizing b with
  | nil => simp [subAux]
  | cons a as ih =>
    cases ha : isAlnum a with
    | true =>
      rw [subAux_cons_alnum b as ha, List.chain'_cons']
      refine ⟨fun y _ => ?_, ih false⟩
      rintro ⟨h1, -⟩
      exact isAlnum_ne_underscore ha h1
    | false =>
      cases b with
      | true =>
        rw [subAux_cons_run as ha]
        exact ih true
      | false =>
        rw [subAux_cons_start as ha, List.chain'_cons']
        refine ⟨fun y hy => ?_, ih true⟩
        rintro ⟨-, h2⟩
        cases hh : subAux true as with
        | nil =>
          rw [hh] at hy
          exact absurd hy (by simp)
        | cons z zs =>
          rw [hh] at hy
          simp only [List.head?_cons, Option.mem_def, Option.some.injEq] at hy
          subst hy
          exact isAlnum_ne_underscore (subAux_true_head as hh) h2

theorem subAux_any_alnum : ∀ (b : Bool) (l : List Char) (c : Char),
    c ∈ l → isAlnum c = true → ∃ d ∈ subAux b l, isAlnum d = true := by
  intro b l
  induction l generalizing b with
  | nil => intro c h; exact absurd h (List.not_mem_nil _)
  | cons a as ih =>
    intro c hmem hc
    cases ha : isAlnum a with
    | true =>
      exact ⟨a, by rw [subAux_cons_alnum b as ha]; exact List.mem_cons_self _ _, ha⟩
    | false =>
      have hmem' : c ∈ as := by
        rcases List.mem_cons.mp hmem with rfl | h'
        · rw [hc] at ha
          exact Bool.noConfusion ha
        · exact h'
      obtain ⟨d, hd, hda⟩ := ih true c hmem' hc
      cases b with
      | true =>
        exact ⟨d, by rw [subAux_cons_run as ha]; exact hd, hda⟩
      | false =>
        exact ⟨d, by rw [subAux_cons_start as ha]; exact List.mem_cons_of_mem _ hd, hda⟩

theorem subAux_fix : ∀ (l : List Char),
    (∀ c ∈ l, isAlnum c = true ∨ c = '_') →
    List.Chain' NotBothUnderscore l →
    (subAux false l = l ∧
      ((∀ c cs, l = c :: cs → isAlnum c = true) → subAux true l = l)) := by
  intro l
  induction l with
  | nil => exact fun _ _ => ⟨rfl, fun _ => rfl⟩
  | cons a as ih =>
    intro hgood hchain
    obtain ⟨ihf, iht⟩ :=
      ih (fun c hc => hgood c (List.mem_cons_of_mem _ hc)) hchain.tail
    cases ha : isAlnum a with
    | true =>
      refine ⟨?_, fun _ => ?_⟩ <;> rw [subAux_cons_alnum _ as ha, ihf]
    | false =>
      have ha' : a = '_' := by
        rcases hgood a (List.mem_cons_self _ _) with h | h
        · rw [h] at ha
          exact Bool.noConfusion ha
        · exact h
      refine ⟨?_, fun hhead => ?_⟩
      · rw [subAux_cons_start as ha]
        have htrue : subAux true as = as := by
          apply iht
          intro c cs hcs
          subst hcs
          have hnbu : NotBothUnderscore a c := (List.chain'_cons.mp hchain).1
          have hcne : c ≠ '_' := fun hc => hnbu ⟨ha', hc⟩
          rcases hgood c (List.mem_cons_of_mem _ (List.mem_cons_self _ _)) with h | h
          · exact h
          · exact absurd h hcne
        rw [htrue, ha']
      · have := hhead a as rfl
        rw [ha] at this
        exact Bool.noConfusion this


theorem dropUnderscore_head : ∀ (l : List Char) {c : Char} {cs : List Char},
    l.dropWhile (fun x => x == '_') = c :: cs → c ≠ '_' := by
  intro l
  induction l with
  | nil => intro c cs h; exact absurd h (by simp)
  | cons a as ih =>
    intro c cs h
    rw [List.dropWhile_cons] at h
    by_cases ha : (a == '_') = true
    · rw [if_pos ha] at h
      exact ih h
    · rw [if_neg ha] at h
      injection h with h1 _
      subst h1
      exact fun he => ha (beq_iff_eq.mpr he)

theorem mem_dropUnderscore_of_ne : ∀ (l : List Char) {c : Char}, c ∈ l →
    c ≠ '_' → c ∈ l.dropWhile (fun x => x == '_') := by
  intro l
  induction l with
  | nil => intro c h; exact absurd h (List.not_mem_nil _)
  | cons a as ih =>
    intro c hmem hne
    rw [List.dropWhile_cons]
    by_cases ha : (a == '_') = true
    · rw [if_pos ha]
      refine ih ?_ hne
      rcases List.mem_cons.mp hmem with rfl | h'
      · exact absurd (beq_iff_eq.mp ha) hne
      · exact h'
    · rw [if_neg ha]
      exact hmem

theorem dropUnderscore_fix : ∀ (l : List Char),
    (∀ c cs, l = c :: cs → c ≠ '_') →
    l.dropWhile (fun x => x == '_') = l := by
  intro l h
  cases l with
  | nil => rfl
  | cons a as =>
    rw [List.dropWhile_cons, if_neg]
    intro hb
    exact h a as rfl (beq_iff_eq.mp hb)

theorem dropTrailing_mem : ∀ (l : List Char), ∀ c ∈ dropTrailingUnderscore l,
    c ∈ l := by
  intro l
  induction l with
  | nil => intro c h; exact absurd h (List.not_mem_nil _)
  | cons a as ih =>
    intro c h
    cases hr : dropTrailingUnderscore as with
    | nil =>
      rw [dropTrailingUnderscore, hr] at h
      by_cases ha : a = '_'
      · rw [if_pos ha] at h
        exact absurd h (List.not_mem_nil _)
      · rw [if_neg ha] at h
        rcases List.mem_singleton.mp h with rfl
        exact List.mem_cons_self _ _
    | cons r rs =>
      rw [dropTrailingUnderscore, hr] at h
      rcases List.mem_cons.mp h with rfl | h'
      · exact List.mem_cons_self _ _
      · exact List.mem_cons_of_mem _ (ih c (hr ▸ h'))

theorem dropTrailing_head : ∀ (l : List Char) {c : Char} {cs : List Char},
    dropTrailingUnderscore l = c :: cs → ∃ t, l = c :: t := by
  intro l
  cases l with
  | nil => intro c cs h; exact absurd h (by simp [dropTrailingUnderscore])
  | cons a as =>
    intro c cs h
    cases hr : dropTrailingUnderscore as with
    | nil =>
      rw [dropTrailingUnderscore, hr] at h
      by_cases ha : a = '_'
      · rw [if_pos ha] at h
        exact absurd h (by simp)
      · rw [if_neg ha] at h
        injection h with h1 _
        exact ⟨as, by rw [h1]⟩
    | cons r rs =>
      rw [dropTrailingUnderscore, hr] at h
      injection h with h1 _
      exact ⟨as, by rw [h1]⟩

theorem dropTrailing_getLast : ∀ (l : List Char),
    (dropTrailingUnderscore l).getLast? ≠ some '_' := by
  intro l
  induction l with
  | nil => simp [dropTrailingUnderscore]
  | cons a as ih =>
    cases hr : dropTrailingUnderscore as with
    | nil =>
      rw [dropTrailingUnderscore, hr]
      by_cases ha : a = '_'
      · rw [if_pos ha]
        simp
      · rw [if_neg ha]
        simpa using ha
    | cons r rs =>
      rw [dropTrailingUnderscore, hr, List.getLast?_cons_cons]
      rw [hr] at ih
      exact ih

theorem dropTrailing_chain : ∀ (l : List Char),
    List.Chain' NotBothUnderscore l →
    List.Chain' NotBothUnderscore (dropTrailingUnderscore l) := by
  intro l
  induction l with
  | nil => intro _; simp [dropTrailingUnderscore]
  | cons a as ih =>
    intro hchain
    cases hr : dropTrailingUnderscore as with
    | nil =>
      rw [dropTrailingUnderscore, hr]
      by_cases ha : a = '_'
      · rw [if_pos ha]
        simp
      · rw [if_neg ha]
        simp
    | cons r rs =>
      rw [dropTrailingUnderscore, hr]
      rw [List.chain'_cons']
      refine ⟨?_, hr ▸ ih hchain.tail⟩
      intro y hy
      simp only [List.head?_cons, Option.mem_def, Option.some.injEq] at hy
      subst hy
      obtain ⟨t, ht⟩ := dropTrailing_head as hr
      subst ht
      exact (List.chain'_cons.mp hchain).1

theorem dropTrailing_fix : ∀ (l : List Char), l.getLast? ≠ some '_' →
    dropTrailingUnderscore l = l := by
  intro l
  induction l with
  | nil => intro _; rfl
  | cons a as ih =>
    intro hlast
    cases as with
    | nil =>
      have ha : a ≠ '_' := by simpa using hlast
      rw [dropTrailingUnderscore]
      simp [dropTrailingUnderscore, ha]
    | cons b bs =>
      have hlast' : (b :: bs).getLast? ≠ some '_' := by
        rwa [List.getLast?_cons_cons] at hlast
      have := ih hlast'
      rw [dropTrailingUnderscore, this]

theorem mem_dropTrailing_of_ne : ∀ (l : List Char) {c : Char}, c ∈ l →
    c ≠ '_' → c ∈ dropTrailingUnderscore l := by
  intro l
  induction l with
  | nil => intro c h; exact absurd h (List.not_mem_nil _)
  | cons a as ih =>
    intro c hmem hne
    cases hr : dropTrailingUnderscore as with
    | nil =>
      rcases List.mem_cons.mp hmem with rfl | h'
      · rw [dropTrailingUnderscore, hr, if_neg hne]
        exact List.mem_singleton.mpr rfl
      · have := ih h' hne
        rw [hr] at this
        exact absurd this (List.not_mem_nil _)
    | cons r rs =>
      rw [dropTrailingUnderscore, hr]
      rcases List.mem_cons.mp hmem with rfl | h'
      · exact List.mem_cons_self _ _
      · exact List.mem_cons_of_mem _ (hr ▸ ih h' hne)


theorem digitSpelling_of_not_digit {c : Char} (h : isDigitChar c = false) :
    digitSpelling c = [c] := by
  simp only [isDigitChar, Bool.or_eq_false_iff, beq_eq_false_iff_ne] at h
  obtain ⟨⟨⟨⟨⟨⟨⟨⟨⟨h0, h1⟩, h2⟩, h3⟩, h4⟩, h5⟩, h6⟩, h7⟩, h8⟩, h9⟩ := h
  simp [digitSpelling, h0, h1, h2, h3, h4, h5, h6, h7, h8, h9]

theorem digitSpelling_spec {c : Char} (hc : isAlnum c = true) :
    digitSpelling c ≠ [] ∧
    (∀ d ∈ digitSpelling c, isAlnum d = true) ∧
    (match digitSpelling c with
      | [] => True
      | d :: _ => isAlnum d = true ∧ isDigitChar d = false) := by
  cases hd : isDigitChar c with
  | true =>
    simp only [isDigitChar, Bool.or_eq_true, beq_iff_eq] at hd
    rcases hd with ((((((((rfl | rfl) | rfl) | rfl) | rfl) | rfl) | rfl) | rfl) | rfl) | rfl <;>
      exact ⟨by decide, by decide, by decide, by decide⟩
  | false =>
    rw [digitSpelling_of_not_digit hd]
    refine ⟨by simp, ?_, ⟨hc, hd⟩⟩
    intro d hdm
    rcases List.mem_singleton.mp hdm with rfl
    exact hc

theorem chain_append_of_left_alnum : ∀ (w r : List Char),
    (∀ a ∈ w, a ≠ '_') → List.Chain' NotBothUnderscore r →
    List.Chain' NotBothUnderscore (w ++ r) := by
  intro w
  induction w with
  | nil => intro r _ hr; exact hr
  | cons a w' ih =>
    intro r hne hr
    rw [List.cons_append, List.chain'_cons']
    refine ⟨fun y _ => ?_, ih r (fun x hx => hne x (List.mem_cons_of_mem _ hx)) hr⟩
    rintro ⟨h1, -⟩
    exact hne a (List.mem_cons_self _ _) h1

theorem getLast_ne_of_all_alnum : ∀ (l : List Char),
    (∀ a ∈ l, isAlnum a = true) → l.getLast? ≠ some '_' := by
  intro l hall h
  exact isAlnum_ne_underscore (hall '_' (List.mem_of_getLast?_eq_some h)) rfl


theorem sanitizeChars_canonical : ∀ (n y : List Char),
    sanitizeChars n = some y → Canonical y := by
  intro n y h
  cases hm : stripUnderscore (subNonAlnum n) with
  | nil =>
    rw [sanitizeChars, hm] at h
    exact Option.noConfusion h
  | cons c rest =>
    rw [sanitizeChars, hm] at h
    obtain rfl : digitSpelling c ++ rest = y := by injection h
    have good_m : ∀ x ∈ (c :: rest), isAlnum x = true ∨ x = '_' := by
      intro x hx
      have hx0 : x ∈ stripUnderscore (subNonAlnum n) := by
        rw [hm]
        exact hx
      have hx1 : x ∈ (subNonAlnum n).dropWhile (fun d => d == '_') :=
        dropTrailing_mem _ x hx0
      exact subAux_good false n x ((List.dropWhile_suffix _).subset hx1)
    have chain_m : List.Chain' NotBothUnderscore (c :: rest) := by
      rw [← hm]
      exact dropTrailing_chain _
        ((subAux_chain false n).suffix (List.dropWhile_suffix _))
    have head_ne : c ≠ '_' := by
      obtain ⟨t, ht⟩ := dropTrailing_head _ hm
      exact dropUnderscore_head _ ht
    have head_alnum : isAlnum c = true :=
      (good_m c (List.mem_cons_self _ _)).resolve_right head_ne
    have last_ne : (c :: rest).getLast? ≠ some '_' := by
      rw [← hm]
      exact dropTrailing_getLast _
    obtain ⟨hne, hall, hmatch⟩ := digitSpelling_spec head_alnum
    cases hds : digitSpelling c with
    | nil => exact absurd hds hne
    | cons d ds =>
      rw [hds] at hmatch
      obtain ⟨hda, hdd⟩ := hmatch
      refine ⟨?_, ?_, ?_, ?_⟩
      · intro x hx
        rcases List.mem_append.mp hx with hxw | hxr
        · refine Or.inl (hall x ?_)
          rw [hds]
          exact hxw
        · exact good_m x (List.mem_cons_of_mem _ hxr)
      · refine chain_append_of_left_alnum _ _ ?_ chain_m.tail
        intro a ha
        refine isAlnum_ne_underscore (hall a ?_)
        rw [hds]
        exact ha
      · exact ⟨hda, hdd⟩
      · cases rest with
        | nil =>
          rw [List.append_nil]
          refine getLast_ne_of_all_alnum _ (fun a ha => hall a ?_)
          rw [hds]
          exact ha
        | cons r0 rs =>
          rw [List.getLast?_append]
          have h1 : (r0 :: rs).getLast? ≠ some '_' := by
            rwa [List.getLast?_cons_cons] at last_ne
          cases hgl : (r0 :: rs).getLast? with
          | none => simp at hgl
          | some z =>
            rw [hgl] at h1
            exact h1

theorem canonical_fix : ∀ (y : List Char), Canonical y →
    sanitizeChars y = some y := by
  rintro y ⟨hgood, hchain, hhead, hlast⟩
  cases y with
  | nil => exact hhead.elim
  | cons c rest =>
    obtain ⟨hca, hcd⟩ := hhead
    have hsub : subNonAlnum (c :: rest) = c :: rest := (subAux_fix _ hgood hchain).1
    have hdw : (c :: rest).dropWhile (fun x => x == '_') = c :: rest := by
      apply dropUnderscore_fix
      intro d ds h
      injection h with h1 _
      subst h1
      exact isAlnum_ne_underscore hca
    have hstrip : stripUnderscore (subNonAlnum (c :: rest)) = c :: rest := by
      rw [hsub, stripUnderscore, hdw]
      exact dropTrailing_fix _ hlast
    rw [sanitizeChars, hstrip]
    show some (digitSpelling c ++ rest) = some (c :: rest)
    rw [digitSpelling_of_not_digit hcd]
    rfl

theorem canonical_valid : ∀ (y : List Char), Canonical y →
    isValidIdentifier (String.mk y) = true := by
  rintro y ⟨hgood, -, hhead, -⟩
  cases y with
  | nil => exact hhead.elim
  | cons c rest =>
    obtain ⟨hca, hcd⟩ := hhead
    show (((isAlnum c && !isDigitChar c) || c == '_') &&
      rest.all (fun d => isAlnum d || d == '_')) = true
    rw [hca, hcd]
    simp only [Bool.not_false, Bool.and_self, Bool.true_or, Bool.true_and]
    rw [List.all_eq_true]
    intro d hd
    rcases hgood d (List.mem_cons_of_mem _ hd) with h | h
    · rw [h]
      rfl
    · rw [h]
      simp

/-- C4, counterexample: on the empty string and on a string with no
alphanumeric characters the sanitizer does not return an identifier —
Python `identifier[0]` raises `IndexError` (modelled `none`). -/
theorem c4_sanitizer_counterexample :
    sanitize_identifier "" = none ∧ sanitize_identifier "--!-" = none :=
  ⟨rfl, rfl⟩

/-- C4, amended: for every input string containing at least one ASCII
alphanumeric character, the sanitizer returns (does not raise) a valid
source-code identifier; inputs without any alphanumeric character (the
empty string included) instead hit the `IndexError`. -/
theorem c4_sanitizer_total_on_alnum (x : String)
    (h : ∃ c ∈ x.toList, isAlnum c = true) :
    ∃ s, sanitize_identifier x = some s ∧ isValidIdentifier s = true := by
  obtain ⟨c, hc, hca⟩ := h
  obtain ⟨d, hd, hda⟩ := subAux_any_alnum false _ c hc hca
  have hd1 : d ∈ (subNonAlnum x.toList).dropWhile (fun z => z == '_') :=
    mem_dropUnderscore_of_ne _ hd (isAlnum_ne_underscore hda)
  have hd2 : d ∈ stripUnderscore (subNonAlnum x.toList) :=
    mem_dropTrailing_of_ne _ hd1 (isAlnum_ne_underscore hda)
  cases hm : stripUnderscore (subNonAlnum x.toList) with
  | nil =>
    rw [hm] at hd2
    exact absurd hd2 (List.not_mem_nil _)
  | cons c0 rest =>
    have hchars : sanitizeChars x.toList = some (digitSpelling c0 ++ rest) := by
      rw [sanitizeChars, hm]
    refine ⟨String.mk (digitSpelling c0 ++ rest), ?_, ?_⟩
    · rw [sanitize_identifier, hchars]
      rfl
    · exact canonical_valid _ (sanitizeChars_canonical _ _ hchars)

/-- C4 witness: `"hello world"` has an alphanumeric character and is
sanitized to a valid identifier. -/
theorem c4_sanitizer_total_on_alnum_witness :
    (∃ c ∈ ("hello world").toList, isAlnum c = true) ∧
      ∃ s, sanitize_identifier "hello world" = some s ∧
        isValidIdentifier s = true :=
  ⟨by decide, c4_sanitizer_total_on_alnum "hello world" (by decide)⟩

/-- C6: wherever the sanitizer is defined (returns a result), it is
idempotent: sanitizing its own output returns that output unchanged. -/
theorem c6_sanitize_idempotent (x s : String)
    (h : sanitize_identifier x = some s) : sanitize_identifier s = some s := by
  obtain ⟨y, hy, hs⟩ : ∃ y, sanitizeChars x.toList = some y ∧ String.mk y = s := by
    cases hc : sanitizeChars x.toList with
    | none =>
      rw [sanitize_identifier, hc] at h
      exact Option.noConfusion h
    | some y =>
      rw [sanitize_identifier, hc] at h
      exact ⟨y, rfl, by injection h⟩
  subst hs
  have hfix := canonical_fix _ (sanitizeChars_canonical _ _ hy)
  rw [sanitize_identifier, show (String.mk y).toList = y from rfl, hfix]
  rfl

/-- C6 witness: `"9 foo"` sanitizes to `"nine_foo"`, whose re-sanitization
is itself. -/
theorem c6_sanitize_idempotent_witness :
    sanitize_identifier "9 foo" = some "nine_foo" ∧
      sanitize_identifier "nine_foo" = some "nine_foo" :=
  ⟨rfl, c6_sanitize_idempotent "9 foo" "nine_foo" rfl⟩
